import Mathlib

/-!
Verification of the badminton session manager (`src/App.tsx`).

The component keeps all state in React `useState` hooks; we embed it as a
single `AppState` record.  JavaScript objects live on a heap and are passed
by reference: the roster (`players`) and the teams inside a `Match` hold
*references* to `Player` objects, and `generateMatches` mutates the
referenced objects in place (`player.gamesPlayed++`).  We therefore model
the object store explicitly: `heap : List Player` is a grow-only allocation
arena, a `Ref` is an index into it, and every list that holds player
objects in the source holds `Ref`s here.  Operations that create new
objects (`addPlayer`, the `{ ...p }` copy in `toggleLeave`) allocate by
appending to the heap; the in-place `gamesPlayed++` mutates a heap cell.
-/

set_option linter.unusedVariables false

namespace Badminton

/-- `type SkillLevel = 'beginner' | 'intermediate' | 'pro-player'`. -/
inductive SkillLevel where
  | beginner
  | intermediate
  | proPlayer
  deriving DecidableEq, Repr, Inhabited

/-- `type PlayingType = 'single' | 'double'`. -/
inductive PlayingType where
  | single
  | double
  deriving DecidableEq, Repr, Inhabited

/-- `interface Player` from the source. -/
structure Player where
  id : String
  name : String
  skill : SkillLevel
  gamesPlayed : Nat
  isOnLeave : Bool
  deriving DecidableEq, Repr, Inhabited

/-- A JavaScript object reference: an index into the allocation heap. -/
abbrev Ref := Nat

/-- `interface Match` from the source.  `team1`/`team2` hold references to
the live `Player` objects, exactly as the JS arrays hold object references. -/
structure Match where
  id : String
  court : Nat
  team1 : List Ref
  team2 : List Ref
  round : Nat
  deriving DecidableEq, Repr, Inhabited

/-- `interface MatchHistory` from the source (`timestamp: Date` modelled as
the millisecond clock value it was constructed from; the `matches` field is
spelled `matchList` because `matches` is reserved). -/
structure MatchHistory where
  round : Nat
  matchList : List Match
  timestamp : Nat
  deriving DecidableEq, Repr, Inhabited

/-- The component's full mutable state (the `useState` hooks that the
claims are about), plus the allocation heap for player objects. -/
structure AppState where
  heap : List Player
  players : List Ref
  currentMatches : List Match
  history : List MatchHistory
  roundNumber : Nat
  courts : Nat
  playingType : PlayingType
  advancedMode : Bool
  deriving DecidableEq, Repr, Inhabited

/-- Dereference a player object.  Well-formed states only use in-range
references, so the default is never observed there. -/
def getP (heap : List Player) (r : Ref) : Player :=
  heap.getD r default

/-- Well-formedness: the roster holds pairwise distinct, in-range object
references (distinct `useState` array entries are distinct objects). -/
abbrev stateInv (s : AppState) : Prop :=
  s.players.Nodup ∧ ∀ r ∈ s.players, r < s.heap.length

/-- JavaScript's `String.prototype.trim`: strip leading and trailing
whitespace (written out over the character list so it is executable by
the kernel). -/
def trimString (s : String) : String :=
  ⟨((s.data.dropWhile Char.isWhitespace).reverse.dropWhile Char.isWhitespace).reverse⟩

/-- `addPlayer` (source lines 99-111): rejects a name whose `trim()` is
falsy, otherwise allocates `{ id: Date.now().toString(), name, skill:
advancedMode ? playerSkill : 'intermediate', gamesPlayed: 0, isOnLeave:
false }` and appends it to the roster. -/
def addPlayer (now : Nat) (playerName : String) (playerSkill : SkillLevel)
    (s : AppState) : AppState :=
  if trimString playerName ≠ "" then
    let newPlayer : Player :=
      { id := toString now
        name := trimString playerName
        skill := if s.advancedMode then playerSkill else .intermediate
        gamesPlayed := 0
        isOnLeave := false }
    { s with heap := s.heap ++ [newPlayer]
             players := s.players ++ [s.heap.length] }
  else s

/-- `removePlayer` (source lines 113-115): `players.filter(p => p.id !== id)`. -/
def removePlayer (pid : String) (s : AppState) : AppState :=
  { s with players := s.players.filter (fun r => (getP s.heap r).id ≠ pid) }

/-- Worker for `toggleLeave`: `players.map(p => p.id === id ? { ...p,
isOnLeave: !p.isOnLeave } : p)` — each matching entry is replaced by a
freshly allocated copy with the flag flipped; non-matching entries keep
their reference.  The old objects are never mutated. -/
def toggleLeaveAux (pid : String) : List Player → List Ref → List Player × List Ref
  | heap, [] => (heap, [])
  | heap, r :: rs =>
    let p := getP heap r
    if p.id = pid then
      let r' := heap.length
      let res := toggleLeaveAux pid (heap ++ [{ p with isOnLeave := !p.isOnLeave }]) rs
      (res.1, r' :: res.2)
    else
      let res := toggleLeaveAux pid heap rs
      (res.1, r :: res.2)

/-- `toggleLeave` (source lines 117-121). -/
def toggleLeave (pid : String) (s : AppState) : AppState :=
  let res := toggleLeaveAux pid s.heap s.players
  { s with heap := res.1, players := res.2 }

/-- `playingType === 'single' ? 2 : 4`, the per-match player count used in
both the validation check and the slicing of `generateMatches`. -/
def playersPerMatch : PlayingType → Nat
  | .single => 2
  | .double => 4

/-- `players.filter(p => !p.isOnLeave)` (source line 137). -/
def activePlayers (s : AppState) : List Ref :=
  s.players.filter (fun r => !(getP s.heap r).isOnLeave)

/-- Rank used by the sort comparator: `{ 'beginner': 0, 'intermediate': 1,
'pro-player': 2 }` (source line 149). -/
def skillOrder : SkillLevel → Nat
  | .beginner => 0
  | .intermediate => 1
  | .proPlayer => 2

/-- The comparator of source lines 145-151 turned into a boolean "a may
come before b" relation: the comparator returns `a.gamesPlayed -
b.gamesPlayed` when the counts differ and `skillOrder[a.skill] -
skillOrder[b.skill]` otherwise, so `a` precedes `b` iff that value is ≤ 0. -/
def playerLe (a b : Player) : Bool :=
  if a.gamesPlayed ≠ b.gamesPlayed then decide (a.gamesPlayed < b.gamesPlayed)
  else decide (skillOrder a.skill ≤ skillOrder b.skill)

/-- The comparator lifted to references. -/
def leRef (heap : List Player) (r1 r2 : Ref) : Bool :=
  playerLe (getP heap r1) (getP heap r2)

/-- The comparator as a decidable relation. -/
def leRefP (heap : List Player) : Ref → Ref → Prop :=
  fun r1 r2 => leRef heap r1 r2 = true

instance (heap : List Player) : DecidableRel (leRefP heap) :=
  fun r1 r2 => inferInstanceAs (Decidable (leRef heap r1 r2 = true))

/-- `const sortedPlayers = [...activePlayers].sort(...)` (source lines
144-151).  `Array.prototype.sort` is a stable sort, and a stable sort for
a total preorder comparator is unique, so the stable `insertionSort` with
the same comparator embeds it faithfully. -/
def sortedPlayers (s : AppState) : List Ref :=
  (activePlayers s).insertionSort (leRefP s.heap)

/-- Teams of a court group (source lines 166-171): singles put
`matchPlayers[0]` vs `matchPlayers[1]`, doubles `[0],[1]` vs `[2],[3]`. -/
def mkTeams : PlayingType → List Ref → List Ref × List Ref
  | .single, a :: b :: _ => ([a], [b])
  | .double, a :: b :: c :: d :: _ => ([a, b], [c, d])
  | _, _ => ([], [])

/-- The effect of one `gamesPlayed++` on a player record. -/
def bump (p : Player) : Player :=
  { p with gamesPlayed := p.gamesPlayed + 1 }

/-- One in-place `player.gamesPlayed++` on the heap cell `r`. -/
def bumpAt : List Player → Nat → List Player
  | [], _ => []
  | p :: t, 0 => bump p :: t
  | p :: t, n + 1 => p :: bumpAt t n

/-- `matchPlayers.forEach(player => { player.gamesPlayed++ })` applied to
each placed group in loop order (source lines 177-179). -/
def bumpRefs (heap : List Player) (rs : List Ref) : List Player :=
  rs.foldl bumpAt heap

/-- The court loop of source lines 159-181, restricted to what it selects:
for each `i < courts` it takes `availablePlayers.slice(i*K, (i+1)*K)` and
keeps the group (with its loop index) iff it is full. -/
def pickedGroups (available : List Ref) (k courts : Nat) : List (Nat × List Ref) :=
  (List.range courts).filterMap fun i =>
    let matchPlayers := (available.drop (i * k)).take k
    if matchPlayers.length = k then some (i, matchPlayers) else none

/-- `const availablePlayers = sortedPlayers.slice(0, totalPlayersNeeded)`
with `totalPlayersNeeded = courts * playersPerMatch` (source lines 153-155). -/
def availableOf (s : AppState) : List Ref :=
  (sortedPlayers s).take (s.courts * playersPerMatch s.playingType)

/-- The full court groups selected by the loop, with their loop index. -/
def pickedOf (s : AppState) : List (Nat × List Ref) :=
  pickedGroups (availableOf s) (playersPerMatch s.playingType) s.courts

/-- The `Match` objects pushed by the loop: court `i + 1` for loop index
`i`, id `` `${Date.now()}-${i}` ``, teams per `mkTeams`, round =
`roundNumber` (source lines 163-174). -/
def matchesOf (now : Nat) (s : AppState) : List Match :=
  (pickedOf s).map fun pg =>
    { id := toString now ++ "-" ++ toString pg.1
      court := pg.1 + 1
      team1 := (mkTeams s.playingType pg.2).1
      team2 := (mkTeams s.playingType pg.2).2
      round := s.roundNumber }

/-- The references whose objects get `gamesPlayed++`, in loop order. -/
def placedOf (s : AppState) : List Ref :=
  ((pickedOf s).map Prod.snd).flatten

/-- `generateMatches` (source lines 136-196).  Returns the new state and
the `alert` message (`some …` exactly when validation rejects).  On
success the loop pushes one `Match` per full group and increments
`gamesPlayed` of each of its players; since building a `Match` only stores
references, performing all the increments after collecting the groups
yields the identical final heap (the increments are exactly
`bumpRefs` over the concatenated groups in loop order). -/
def generateMatches (now : Nat) (s : AppState) : AppState × Option String :=
  if (activePlayers s).length < playersPerMatch s.playingType then
    (s, some ("Need at least " ++ toString (playersPerMatch s.playingType)
        ++ " active players!"))
  else
    ({ s with
        heap := bumpRefs s.heap (placedOf s)
        currentMatches := matchesOf now s
        history := ⟨s.roundNumber, matchesOf now s, now⟩ :: s.history
        roundNumber := s.roundNumber + 1 },
     none)

/-- The court-count input handler (source line 245):
`setCourts(parseInt(e.target.value) || 1)`.  The argument is the result of
`parseInt`: `none` for `NaN`, `some n` for an integer.  `NaN` and `0` are
falsy, so `|| 1` replaces them; every other integer (negative ones
included) is truthy and stored unchanged. -/
def parseCourtInput : Option Int → Int
  | none => 1
  | some n => if n = 0 then 1 else n

/-! ### The persistence loader (`loadState`, source lines 40-68)

The stored value under the key `badmintonState` is arbitrary JSON (the
file may have been corrupted).  We model the JavaScript value space the
loader can encounter with `JVal` (plus a `jdate` constructor for the
`Date` objects the loader itself builds), member access `parsed.x` (a
`TypeError` on `null`, `undefined` — modelled `none` — on any other
non-object), `||`-defaulting by JS truthiness, and the
`history?.map(h => ({ ...h, timestamp: new Date(h.timestamp) }))` step.
The whole body runs inside one `try`/`catch`, so a thrown `TypeError`
anywhere yields the fresh default state; evaluation order of the pure
accesses does not matter beyond that. -/

inductive JVal where
  | jnull
  | jbool (b : Bool)
  | jnum (n : Int)
  | jstr (str : String)
  | jarr (xs : List JVal)
  | jobj (fs : List (String × JVal))
  | jdate (ts : Option JVal)

instance : Inhabited JVal := ⟨.jnull⟩

/-- JavaScript truthiness of a value (`undefined` is handled at the
`Option` layer). -/
def truthy : JVal → Bool
  | .jnull => false
  | .jbool b => b
  | .jnum n => decide (n ≠ 0)
  | .jstr str => decide (str ≠ "")
  | .jarr _ => true
  | .jobj _ => true
  | .jdate _ => true

/-- First-match key lookup in an object's field list. -/
def lookupField : List (String × JVal) → String → Option JVal
  | [], _ => none
  | (k, x) :: t, key => if k = key then some x else lookupField t key

/-- Member access on a non-`null` value: a field of an object, otherwise
`undefined` (`none`).  Access on `null` throws and is handled by the
caller. -/
def jGet (v : JVal) (key : String) : Option JVal :=
  match v with
  | .jobj fs => lookupField fs key
  | _ => none

/-- Enumerable own properties seen by a spread `{ ...h }`: an object's
fields, an array's or string's indexed elements, nothing for primitives. -/
def spreadFields : JVal → List (String × JVal)
  | .jobj fs => fs
  | .jarr xs => xs.enum.map (fun p => (toString p.1, p.2))
  | .jstr str => str.data.enum.map (fun p => (toString p.1, JVal.jstr ⟨[p.2]⟩))
  | _ => []

/-- Drop every binding of a key (used to model the override of
`timestamp` in the spread object literal; only lookups on the result are
ever observed, for which this equals the JS overwrite-in-place). -/
def removeField : List (String × JVal) → String → List (String × JVal)
  | [], _ => []
  | (k, x) :: t, key => if k = key then removeField t key else (k, x) :: removeField t key

/-- `h => ({ ...h, timestamp: new Date(h.timestamp) })`: throws
(`TypeError`) iff `h` is `null`; otherwise spreads `h` and overrides
`timestamp` with the constructed date. -/
def mapEntry (h : JVal) : Except Unit JVal :=
  match h with
  | .jnull => .error ()
  | _ => .ok (.jobj (removeField (spreadFields h) "timestamp"
      ++ [("timestamp", .jdate (jGet h "timestamp"))]))

/-- `Array.prototype.map` over the history entries, propagating a throw. -/
def mapEntries : List JVal → Except Unit (List JVal)
  | [] => .ok []
  | h :: t =>
    match mapEntry h, mapEntries t with
    | .ok h2, .ok t2 => .ok (h2 :: t2)
    | .error e, _ => .error e
    | _, .error e => .error e

/-- `parsed.history?.map(...)`: `undefined`/`null` short-circuit to
`undefined`; an array is mapped; calling `.map` on any other value throws
`TypeError`. -/
def loadHistory : Option JVal → Except Unit (Option JVal)
  | none => .ok none
  | some .jnull => .ok none
  | some (.jarr xs) =>
    match mapEntries xs with
    | .error e => .error e
    | .ok ys => .ok (some (.jarr ys))
  | some _ => .error ()

/-- `x || d`: keep `x` when present and truthy, else the default. -/
def orDefault (x : Option JVal) (d : JVal) : JVal :=
  match x with
  | some w => if truthy w then w else d
  | none => d

/-- The shape the loader returns — each field holds whatever JS value the
`||`-defaulting produced, with no further validation. -/
structure DynState where
  players : JVal
  history : JVal
  roundNumber : JVal
  courts : JVal
  playingType : JVal
  advancedMode : JVal

/-- The fresh default session returned on a missing key or a caught
error (source lines 60-67). -/
def defaultDyn : DynState :=
  { players := .jarr []
    history := .jarr []
    roundNumber := .jnum 1
    courts := .jnum 1
    playingType := .jstr "double"
    advancedMode := .jbool false }

/-- The `return { players: parsed.players || [], … }` body (source lines
45-55): access on `null` throws, the `history?.map` step may throw, and
each field falls back to its default exactly when the accessed value is
absent or falsy. -/
def loadFrom (parsed : JVal) : Except Unit DynState :=
  match parsed with
  | .jnull => .error ()
  | _ =>
    match loadHistory (jGet parsed "history") with
    | .error e => .error e
    | .ok hi =>
      .ok { players := orDefault (jGet parsed "players") (.jarr [])
            history := orDefault hi (.jarr [])
            roundNumber := orDefault (jGet parsed "roundNumber") (.jnum 1)
            courts := orDefault (jGet parsed "courts") (.jnum 1)
            playingType := orDefault (jGet parsed "playingType") (.jstr "double")
            advancedMode := orDefault (jGet parsed "advancedMode") (.jbool false) }

/-- `loadState` (source lines 40-68).  The stored value: `none` when the
key is absent (or the stored string is falsy), `some none` when
`JSON.parse` throws, `some (some v)` when it parses to `v`. -/
def loadState : Option (Option JVal) → DynState
  | none => defaultDyn
  | some none => defaultDyn
  | some (some parsed) =>
    match loadFrom parsed with
    | .ok st => st
    | .error _ => defaultDyn

/-! Structural validity of the loaded session, per the spec's data model. -/

/-- A persisted skill tier string. -/
def validSkillStr (v : JVal) : Bool :=
  match v with
  | .jstr str => str == "beginner" || str == "intermediate" || str == "pro-player"
  | _ => false

/-- A structurally valid persisted `Player`. -/
def validPlayerJ (v : JVal) : Bool :=
  match v with
  | .jobj fs =>
    (match lookupField fs "id" with | some (.jstr _) => true | _ => false) &&
    (match lookupField fs "name" with | some (.jstr _) => true | _ => false) &&
    (match lookupField fs "skill" with | some w => validSkillStr w | _ => false) &&
    (match lookupField fs "gamesPlayed" with | some (.jnum _) => true | _ => false) &&
    (match lookupField fs "isOnLeave" with | some (.jbool _) => true | _ => false)
  | _ => false

/-- A structurally valid persisted `Match`. -/
def validMatchJ (v : JVal) : Bool :=
  match v with
  | .jobj fs =>
    (match lookupField fs "id" with | some (.jstr _) => true | _ => false) &&
    (match lookupField fs "court" with | some (.jnum _) => true | _ => false) &&
    (match lookupField fs "team1" with
      | some (.jarr xs) => xs.all validPlayerJ | _ => false) &&
    (match lookupField fs "team2" with
      | some (.jarr xs) => xs.all validPlayerJ | _ => false) &&
    (match lookupField fs "round" with | some (.jnum _) => true | _ => false)
  | _ => false

/-- A structurally valid history entry *after* the loader's timestamp
rebuild: round number, match list, and a `Date` timestamp. -/
def validEntryJ (v : JVal) : Bool :=
  match v with
  | .jobj fs =>
    (match lookupField fs "round" with | some (.jnum _) => true | _ => false) &&
    (match lookupField fs "matches" with
      | some (.jarr xs) => xs.all validMatchJ | _ => false) &&
    (match lookupField fs "timestamp" with | some (.jdate _) => true | _ => false)
  | _ => false

/-- A structurally valid history entry as stored (before the timestamp
rebuild). -/
def validRawEntryJ (v : JVal) : Bool :=
  match v with
  | .jobj fs =>
    (match lookupField fs "round" with | some (.jnum _) => true | _ => false) &&
    (match lookupField fs "matches" with
      | some (.jarr xs) => xs.all validMatchJ | _ => false)
  | _ => false

/-- A persisted playing type. -/
def validPlayingTypeJ (v : JVal) : Bool :=
  match v with
  | .jstr str => str == "single" || str == "double"
  | _ => false

/-- Structural validity of a loaded session state. -/
def isValidDyn (st : DynState) : Bool :=
  (match st.players with | .jarr xs => xs.all validPlayerJ | _ => false) &&
  (match st.history with | .jarr xs => xs.all validEntryJ | _ => false) &&
  (match st.roundNumber with | .jnum _ => true | _ => false) &&
  (match st.courts with | .jnum _ => true | _ => false) &&
  validPlayingTypeJ st.playingType &&
  (match st.advancedMode with | .jbool _ => true | _ => false)

/-- "Each present truthy field of the stored object is well-typed": the
weakest condition under which the `||`-defaulting loader can promise a
structurally valid result. -/
def fieldOkOr (x : Option JVal) (p : JVal → Bool) : Bool :=
  match x with
  | none => true
  | some w => !truthy w || p w

/-- Well-typedness-or-falsiness of every field of the stored value. -/
def fieldsOk (v : JVal) : Bool :=
  match v with
  | .jobj fs =>
    fieldOkOr (lookupField fs "players")
      (fun w => match w with | .jarr xs => xs.all validPlayerJ | _ => false) &&
    fieldOkOr (lookupField fs "history")
      (fun w => match w with | .jarr xs => xs.all validRawEntryJ | _ => false) &&
    fieldOkOr (lookupField fs "roundNumber")
      (fun w => match w with | .jnum _ => true | _ => false) &&
    fieldOkOr (lookupField fs "courts")
      (fun w => match w with | .jnum _ => true | _ => false) &&
    fieldOkOr (lookupField fs "playingType") validPlayingTypeJ &&
    fieldOkOr (lookupField fs "advancedMode")
      (fun w => match w with | .jbool _ => true | _ => false)
  | _ => true

/-- A well-formed stored snapshot used by the C7 witness. -/
def wJson : JVal :=
  .jobj [("players", .jarr []), ("roundNumber", .jnum 3)]

/-- What the loader produces for `wJson`. -/
def wDyn : DynState :=
  { players := .jarr []
    history := .jarr []
    roundNumber := .jnum 3
    courts := .jnum 1
    playingType := .jstr "double"
    advancedMode := .jbool false }

/-- Number of matches a successful generation produces (claim C1's
`min(C, floor(N/K))`). -/
def matchCount (s : AppState) : Nat :=
  min s.courts ((activePlayers s).length / playersPerMatch s.playingType)

/-- All references placed into some team of a match. -/
def matchRefs (m : Match) : List Ref :=
  m.team1 ++ m.team2

/-- The claim's description of the court groups: court `i + 1` receives
positions `i*K … i*K + K - 1` of the sorted order. -/
def groupAt (s : AppState) (i : Nat) : List Ref :=
  ((sortedPlayers s).drop (i * playersPerMatch s.playingType)).take
    (playersPerMatch s.playingType)

/-- The spec's sort key, spelled out: ascending games-played, ties broken
by ascending skill-tier rank. -/
def specSortKeyLe (heap : List Player) (r1 r2 : Ref) : Prop :=
  (getP heap r1).gamesPlayed < (getP heap r2).gamesPlayed ∨
  ((getP heap r1).gamesPlayed = (getP heap r2).gamesPlayed ∧
    skillOrder (getP heap r1).skill ≤ skillOrder (getP heap r2).skill)

/-- The spec's wording for team one: singles `player[0]`, doubles
`{player[0], player[1]}`. -/
def specTeam1 : PlayingType → List Ref → List Ref
  | .single, g => g.take 1
  | .double, g => g.take 2

/-- The spec's wording for team two: singles `player[1]`, doubles
`{player[2], player[3]}`. -/
def specTeam2 : PlayingType → List Ref → List Ref
  | .single, g => g.drop 1
  | .double, g => g.drop 2

/-! ### Example states used by the witnesses (the spec's §8 scenarios) -/

/-- Roster `A(0,beginner), B(0,intermediate), C(1,beginner), D(0,pro)`,
format `double`, one court — the worked scenario of spec §8. -/
def wDouble : AppState :=
  { heap := [⟨"1", "A", .beginner, 0, false⟩, ⟨"2", "B", .intermediate, 0, false⟩,
             ⟨"3", "C", .beginner, 1, false⟩, ⟨"4", "D", .proPlayer, 0, false⟩]
    players := [0, 1, 2, 3]
    currentMatches := []
    history := []
    roundNumber := 1
    courts := 1
    playingType := .double
    advancedMode := true }

/-- Three active players with format `double` — the rejection scenario. -/
def wBad3 : AppState :=
  { heap := [⟨"1", "A", .beginner, 0, false⟩, ⟨"2", "B", .intermediate, 0, false⟩,
             ⟨"3", "C", .beginner, 1, false⟩]
    players := [0, 1, 2]
    currentMatches := []
    history := []
    roundNumber := 1
    courts := 1
    playingType := .double
    advancedMode := false }

/-- Two players, format `single`, one court. -/
def wSingle : AppState :=
  { heap := [⟨"1", "alice", .intermediate, 0, false⟩,
             ⟨"2", "bob", .intermediate, 0, false⟩]
    players := [0, 1]
    currentMatches := []
    history := []
    roundNumber := 1
    courts := 1
    playingType := .single
    advancedMode := false }

/-- Five players, format `single`, two courts: two matches, one player
left over. -/
def wTwoCourts : AppState :=
  { heap := [⟨"1", "A", .intermediate, 0, false⟩, ⟨"2", "B", .intermediate, 0, false⟩,
             ⟨"3", "C", .intermediate, 1, false⟩, ⟨"4", "D", .intermediate, 0, false⟩,
             ⟨"5", "E", .intermediate, 2, false⟩]
    players := [0, 1, 2, 3, 4]
    currentMatches := []
    history := []
    roundNumber := 1
    courts := 2
    playingType := .single
    advancedMode := false }

/-- Advanced mode off; two never-played players whose stored tiers are
`pro-player` and `beginner` (tiers persist from an earlier advanced-mode
session). -/
def wSkillA : AppState :=
  { heap := [⟨"1", "x", .proPlayer, 0, false⟩, ⟨"2", "y", .beginner, 0, false⟩]
    players := [0, 1]
    currentMatches := []
    history := []
    roundNumber := 1
    courts := 1
    playingType := .single
    advancedMode := false }

/-- `wSkillA` with the two stored tiers swapped — nothing else differs. -/
def wSkillB : AppState :=
  { wSkillA with
      heap := [⟨"1", "x", .beginner, 0, false⟩, ⟨"2", "y", .proPlayer, 0, false⟩] }

/-! ### The comparator is a total preorder -/

theorem playerLe_total (a b : Player) : playerLe a b = true ∨ playerLe b a = true := by
  unfold playerLe
  by_cases h : a.gamesPlayed = b.gamesPlayed
  · simp [h]
    omega
  · simp [h, Ne.symm h]

theorem playerLe_trans {a b c : Player} (h1 : playerLe a b = true)
    (h2 : playerLe b c = true) : playerLe a c = true := by
  unfold playerLe at *
  by_cases hab : a.gamesPlayed = b.gamesPlayed <;>
    by_cases hbc : b.gamesPlayed = c.gamesPlayed <;>
    by_cases hac : a.gamesPlayed = c.gamesPlayed <;>
    simp_all <;> omega

instance (heap : List Player) : IsTotal Ref (leRefP heap) :=
  ⟨fun r1 r2 => playerLe_total (getP heap r1) (getP heap r2)⟩

instance (heap : List Player) : IsTrans Ref (leRefP heap) :=
  ⟨fun _ _ _ h1 h2 => playerLe_trans h1 h2⟩

theorem sortedPlayers_perm (s : AppState) : (sortedPlayers s).Perm (activePlayers s) :=
  List.perm_insertionSort _ _

theorem sortedPlayers_sorted (s : AppState) :
    List.Pairwise (leRefP s.heap) (sortedPlayers s) :=
  List.sorted_insertionSort _ _

theorem playersPerMatch_pos (t : PlayingType) : 0 < playersPerMatch t := by
  cases t <;> decide

/-! ### The two branches of `generateMatches` -/

theorem generateMatches_pos (now : Nat) (s : AppState)
    (h : (activePlayers s).length < playersPerMatch s.playingType) :
    generateMatches now s =
      (s, some ("Need at least " ++ toString (playersPerMatch s.playingType)
        ++ " active players!")) := by
  simp [generateMatches, h]

theorem generateMatches_neg (now : Nat) (s : AppState)
    (h : playersPerMatch s.playingType ≤ (activePlayers s).length) :
    generateMatches now s =
      ({ s with
          heap := bumpRefs s.heap (placedOf s)
          currentMatches := matchesOf now s
          history := ⟨s.roundNumber, matchesOf now s, now⟩ :: s.history
          roundNumber := s.roundNumber + 1 },
       none) := by
  simp [generateMatches, Nat.not_lt.2 h]

/-- C3: when fewer active players exist than the format needs for one
court (2 for singles, 4 for doubles), `generateMatches` surfaces the
alert message and leaves the whole state — roster, counters, flags,
history, current matches, round counter — unchanged. -/
theorem C3_validation_rejects_without_mutation (now : Nat) (s : AppState)
    (hlt : (activePlayers s).length < playersPerMatch s.playingType) :
    (generateMatches now s).1 = s ∧
    (generateMatches now s).2 =
      some ("Need at least " ++ toString (playersPerMatch s.playingType)
        ++ " active players!") := by
  rw [generateMatches_pos now s hlt]
  exact ⟨rfl, rfl⟩

theorem C3_witness :
    (activePlayers wBad3).length < playersPerMatch wBad3.playingType ∧
    (generateMatches 9 wBad3).1 = wBad3 ∧
    (generateMatches 9 wBad3).2 =
      some ("Need at least " ++ toString (playersPerMatch wBad3.playingType)
        ++ " active players!") :=
  ⟨by decide, (C3_validation_rejects_without_mutation 9 wBad3 (by decide)).1,
    (C3_validation_rejects_without_mutation 9 wBad3 (by decide)).2⟩

/-- C4: a validation-passing call prepends exactly one history entry,
carrying the pre-call round number and the produced matches, and bumps the
round counter by one; a rejected call changes neither. -/
theorem C4_history_and_round_counter (now : Nat) (s : AppState) :
    (playersPerMatch s.playingType ≤ (activePlayers s).length →
      (generateMatches now s).1.history =
        ⟨s.roundNumber, (generateMatches now s).1.currentMatches, now⟩ :: s.history
      ∧ (generateMatches now s).1.roundNumber = s.roundNumber + 1)
    ∧ ((activePlayers s).length < playersPerMatch s.playingType →
      (generateMatches now s).1.history = s.history
      ∧ (generateMatches now s).1.roundNumber = s.roundNumber) := by
  constructor
  · intro h
    rw [generateMatches_neg now s h]
    exact ⟨rfl, rfl⟩
  · intro h
    rw [generateMatches_pos now s h]
    exact ⟨rfl, rfl⟩

theorem C4_witness :
    (playersPerMatch wSingle.playingType ≤ (activePlayers wSingle).length ∧
      (generateMatches 7 wSingle).1.history =
        ⟨wSingle.roundNumber, (generateMatches 7 wSingle).1.currentMatches, 7⟩
          :: wSingle.history ∧
      (generateMatches 7 wSingle).1.roundNumber = wSingle.roundNumber + 1) ∧
    ((activePlayers wBad3).length < playersPerMatch wBad3.playingType ∧
      (generateMatches 7 wBad3).1.history = wBad3.history ∧
      (generateMatches 7 wBad3).1.roundNumber = wBad3.roundNumber) :=
  ⟨⟨by decide, ((C4_history_and_round_counter 7 wSingle).1 (by decide)).1,
      ((C4_history_and_round_counter 7 wSingle).1 (by decide)).2⟩,
    ⟨by decide, ((C4_history_and_round_counter 7 wBad3).2 (by decide)).1,
      ((C4_history_and_round_counter 7 wBad3).2 (by decide)).2⟩⟩

/-- C9 counterexample: the handler `setCourts(parseInt(v) || 1)` does not
clamp negative numbers — `parseInt` yields `-3` for the input string
`"-3"`, `-3` is truthy, and the stored court count becomes `-3 < 1`,
refuting "the resulting court count is at least 1 for every input". -/
theorem C9_counterexample :
    parseCourtInput (some (-3)) = -3 ∧ parseCourtInput (some (-3)) < 1 := by
  decide

/-- C9 amended: non-numeric (`NaN`) and zero inputs are mapped to 1, but
every other parsed integer — negative ones included — is stored
unchanged, so the stored court count can be smaller than 1. -/
theorem C9_amended :
    parseCourtInput none = 1 ∧ parseCourtInput (some 0) = 1 ∧
    ∀ n : Int, n ≠ 0 → parseCourtInput (some n) = n := by
  refine ⟨rfl, rfl, fun n hn => ?_⟩
  simp [parseCourtInput, hn]

theorem C9_witness : (7 : Int) ≠ 0 ∧ parseCourtInput (some 7) = 7 :=
  ⟨by decide, C9_amended.2.2 7 (by decide)⟩

/-! ### Heap update lemmas -/

theorem bumpAt_length (h : List Player) (n : Nat) : (bumpAt h n).length = h.length := by
  induction h generalizing n with
  | nil => rfl
  | cons p t ih =>
    cases n with
    | zero => rfl
    | succ n => simp [bumpAt, ih]

theorem getP_bumpAt_self (h : List Player) (n : Nat) (hn : n < h.length) :
    getP (bumpAt h n) n = bump (getP h n) := by
  induction h generalizing n with
  | nil => simp at hn
  | cons p t ih =>
    cases n with
    | zero => rfl
    | succ n =>
      show getP (bumpAt t n) n = bump (getP t n)
      exact ih n (by simpa using hn)

theorem getP_bumpAt_ne (h : List Player) (n r : Nat) (hr : r ≠ n) :
    getP (bumpAt h n) r = getP h r := by
  induction h generalizing n r with
  | nil => rfl
  | cons p t ih =>
    cases n with
    | zero =>
      cases r with
      | zero => exact absurd rfl hr
      | succ r => rfl
    | succ n =>
      cases r with
      | zero => rfl
      | succ r =>
        show getP (bumpAt t n) r = getP t r
        exact ih n r (fun hh => hr (by rw [hh]))

theorem bumpRefs_cons (h : List Player) (r : Ref) (rs : List Ref) :
    bumpRefs h (r :: rs) = bumpRefs (bumpAt h r) rs := rfl

theorem bumpRefs_length (h : List Player) (rs : List Ref) :
    (bumpRefs h rs).length = h.length := by
  induction rs generalizing h with
  | nil => rfl
  | cons r rs ih => rw [bumpRefs_cons, ih, bumpAt_length]

theorem getP_bumpRefs (h : List Player) (rs : List Ref) (hnd : rs.Nodup)
    (hlt : ∀ x ∈ rs, x < h.length) (r : Ref) :
    getP (bumpRefs h rs) r = if r ∈ rs then bump (getP h r) else getP h r := by
  induction rs generalizing h with
  | nil => simp [bumpRefs]
  | cons r0 rs ih =>
    rw [bumpRefs_cons]
    rcases List.nodup_cons.1 hnd with ⟨h0, hnd'⟩
    have hlt' : ∀ x ∈ rs, x < (bumpAt h r0).length := by
      intro x hx
      rw [bumpAt_length]
      exact hlt x (List.mem_cons_of_mem _ hx)
    rw [ih (bumpAt h r0) hnd' hlt']
    by_cases hr : r = r0
    · subst hr
      simp only [List.mem_cons, true_or, if_pos, h0, if_neg]
      exact getP_bumpAt_self h r (hlt r (List.mem_cons_self _ _))
    · by_cases hrs : r ∈ rs
      · simp only [hrs, if_pos, List.mem_cons, or_true]
        rw [getP_bumpAt_ne h r0 r hr]
      · have : r ∉ r0 :: rs := by
          simp [hr, hrs]
        simp only [hrs, if_neg, this]
        exact getP_bumpAt_ne h r0 r hr

/-! ### Shape of the selection loop -/

theorem min_div_div (a b k : Nat) : min a b / k = min (a / k) (b / k) := by
  rcases Nat.le_total a b with h | h
  · simp [Nat.min_eq_left h, Nat.min_eq_left (Nat.div_le_div_right h)]
  · simp [Nat.min_eq_right h, Nat.min_eq_right (Nat.div_le_div_right h)]

theorem filterMap_some_of {α β : Type} (f : α → Option β) (F : α → β) (l : List α)
    (h : ∀ a ∈ l, f a = some (F a)) : l.filterMap f = l.map F := by
  induction l with
  | nil => rfl
  | cons a t ih =>
    rw [List.filterMap_cons, h a (List.mem_cons_self _ _), List.map_cons,
      ih (fun x hx => h x (List.mem_cons_of_mem _ hx))]

theorem filterMap_none_of {α β : Type} (f : α → Option β) (l : List α)
    (h : ∀ a ∈ l, f a = none) : l.filterMap f = [] := by
  induction l with
  | nil => rfl
  | cons a t ih =>
    rw [List.filterMap_cons, h a (List.mem_cons_self _ _)]
    exact ih (fun x hx => h x (List.mem_cons_of_mem _ hx))

theorem pickedGroups_eq (l : List Ref) (k C : Nat) (hk : 0 < k)
    (hl : l.length ≤ C * k) :
    pickedGroups l k C =
      (List.range (l.length / k)).map (fun i => (i, (l.drop (i * k)).take k)) := by
  have hM : l.length / k ≤ C := by
    have h1 : l.length / k ≤ (C * k) / k := Nat.div_le_div_right hl
    rwa [Nat.mul_div_cancel C hk] at h1
  have hcond : ∀ i : Nat, (((l.drop (i * k)).take k).length = k) ↔ i < l.length / k := by
    intro i
    rw [List.length_take, List.length_drop, Nat.lt_iff_add_one_le,
      Nat.le_div_iff_mul_le hk, Nat.succ_mul]
    rcases Nat.le_total k (l.length - i * k) with h | h
    · constructor
      · intro _
        omega
      · intro _
        exact min_eq_left h
    · constructor
      · intro hmin
        rw [min_eq_right h] at hmin
        omega
      · intro hik
        omega
  unfold pickedGroups
  rw [show C = l.length / k + (C - l.length / k) from (Nat.add_sub_cancel' hM).symm,
    List.range_add, List.filterMap_append]
  have h1 : (List.range (l.length / k)).filterMap
      (fun i =>
        if ((l.drop (i * k)).take k).length = k then some (i, (l.drop (i * k)).take k)
        else none) =
      (List.range (l.length / k)).map (fun i => (i, (l.drop (i * k)).take k)) := by
    apply filterMap_some_of
    intro i hi
    rw [List.mem_range] at hi
    rw [if_pos ((hcond i).2 hi)]
  have h2 : ((List.range (C - l.length / k)).map (fun x => l.length / k + x)).filterMap
      (fun i =>
        if ((l.drop (i * k)).take k).length = k then some (i, (l.drop (i * k)).take k)
        else none) = [] := by
    apply filterMap_none_of
    intro a ha
    rcases List.mem_map.1 ha with ⟨x, _, rfl⟩
    have hnotlt : ¬ (l.length / k + x < l.length / k) := by omega
    rw [if_neg (fun hc => hnotlt ((hcond _).1 hc))]
  rw [h1, h2, List.append_nil]

theorem flatten_chunks {α : Type} (l : List α) (k : Nat) (n : Nat) :
    ((List.range n).map fun i => (l.drop (i * k)).take k).flatten = l.take (n * k) := by
  induction n with
  | zero => simp
  | succ n ih =>
    rw [List.range_succ, List.map_append, List.flatten_append]
    simp only [List.map_cons, List.map_nil, List.flatten_cons, List.flatten_nil,
      List.append_nil]
    rw [ih, Nat.succ_mul, List.take_add]

theorem length_sortedPlayers (s : AppState) :
    (sortedPlayers s).length = (activePlayers s).length :=
  (sortedPlayers_perm s).length_eq

theorem availableOf_length (s : AppState) :
    (availableOf s).length =
      min (s.courts * playersPerMatch s.playingType) (activePlayers s).length := by
  rw [availableOf, List.length_take, length_sortedPlayers]

theorem availableOf_le (s : AppState) :
    (availableOf s).length ≤ s.courts * playersPerMatch s.playingType := by
  rw [availableOf_length]
  exact Nat.min_le_left _ _

theorem availableOf_div (s : AppState) :
    (availableOf s).length / playersPerMatch s.playingType = matchCount s := by
  rw [availableOf_length, min_div_div,
    Nat.mul_div_cancel s.courts (playersPerMatch_pos s.playingType), matchCount]

theorem matchCount_le_courts (s : AppState) : matchCount s ≤ s.courts :=
  Nat.min_le_left _ _

theorem matchCount_le_div (s : AppState) :
    matchCount s ≤ (activePlayers s).length / playersPerMatch s.playingType :=
  Nat.min_le_right _ _

theorem groupAt_avail (s : AppState) (i : Nat) (hi : i < matchCount s) :
    ((availableOf s).drop (i * playersPerMatch s.playingType)).take
        (playersPerMatch s.playingType) = groupAt s i := by
  have hiC : i + 1 ≤ s.courts := Nat.lt_of_lt_of_le hi (matchCount_le_courts s)
  have hmul : (i + 1) * playersPerMatch s.playingType ≤
      s.courts * playersPerMatch s.playingType :=
    Nat.mul_le_mul_right _ hiC
  rw [Nat.succ_mul] at hmul
  rw [availableOf, groupAt, List.drop_take, List.take_take]
  congr 1
  apply min_eq_left
  omega

theorem groupAt_length (s : AppState) (i : Nat) (hi : i < matchCount s) :
    (groupAt s i).length = playersPerMatch s.playingType := by
  have h1 : i + 1 ≤ (activePlayers s).length / playersPerMatch s.playingType :=
    Nat.lt_of_lt_of_le hi (matchCount_le_div s)
  have h2 : (i + 1) * playersPerMatch s.playingType ≤ (activePlayers s).length :=
    (Nat.le_div_iff_mul_le (playersPerMatch_pos s.playingType)).1 h1
  rw [Nat.succ_mul] at h2
  rw [groupAt, List.length_take, List.length_drop, length_sortedPlayers]
  apply min_eq_left
  omega

theorem pickedOf_eq (s : AppState) :
    pickedOf s = (List.range (matchCount s)).map (fun i => (i, groupAt s i)) := by
  rw [pickedOf, pickedGroups_eq _ _ _ (playersPerMatch_pos s.playingType) (availableOf_le s),
    availableOf_div]
  apply List.map_congr_left
  intro i hi
  rw [groupAt_avail s i (List.mem_range.1 hi)]

theorem placedOf_eq (s : AppState) :
    placedOf s = (sortedPlayers s).take (matchCount s * playersPerMatch s.playingType) := by
  rw [placedOf, pickedOf_eq, List.map_map]
  have h : (Prod.snd ∘ fun i => (i, groupAt s i)) = fun i =>
      ((sortedPlayers s).drop (i * playersPerMatch s.playingType)).take
        (playersPerMatch s.playingType) := rfl
  rw [h, flatten_chunks]

theorem activePlayers_nodup (s : AppState) (hinv : stateInv s) :
    (activePlayers s).Nodup :=
  hinv.1.filter _

theorem sortedPlayers_nodup (s : AppState) (hinv : stateInv s) :
    (sortedPlayers s).Nodup :=
  (sortedPlayers_perm s).symm.nodup (activePlayers_nodup s hinv)

theorem sortedPlayers_lt (s : AppState) (hinv : stateInv s) :
    ∀ r ∈ sortedPlayers s, r < s.heap.length := by
  intro r hr
  have hr2 : r ∈ activePlayers s := ((sortedPlayers_perm s).mem_iff).1 hr
  exact hinv.2 r (List.mem_of_mem_filter hr2)

theorem placedOf_nodup (s : AppState) (hinv : stateInv s) : (placedOf s).Nodup := by
  rw [placedOf_eq]
  exact (List.take_sublist _ _).nodup (sortedPlayers_nodup s hinv)

theorem placedOf_lt (s : AppState) (hinv : stateInv s) :
    ∀ r ∈ placedOf s, r < s.heap.length := by
  intro r hr
  rw [placedOf_eq] at hr
  exact sortedPlayers_lt s hinv r ((List.take_sublist _ _).subset hr)

theorem mkTeams_flatten (t : PlayingType) (g : List Ref)
    (hg : g.length = playersPerMatch t) :
    (mkTeams t g).1 ++ (mkTeams t g).2 = g := by
  cases t <;> simp only [playersPerMatch] at hg <;>
    rcases g with _ | ⟨a, _ | ⟨b, _ | ⟨c, _ | ⟨d, rest⟩⟩⟩⟩ <;>
    simp_all [mkTeams]

theorem mkTeams_spec (t : PlayingType) (g : List Ref)
    (hg : g.length = playersPerMatch t) :
    (mkTeams t g).1 = specTeam1 t g ∧ (mkTeams t g).2 = specTeam2 t g := by
  cases t <;> simp only [playersPerMatch] at hg <;>
    rcases g with _ | ⟨a, _ | ⟨b, _ | ⟨c, _ | ⟨d, rest⟩⟩⟩⟩ <;>
    simp_all [mkTeams, specTeam1, specTeam2]

theorem matchesOf_eq (now : Nat) (s : AppState) :
    matchesOf now s = (List.range (matchCount s)).map (fun i =>
      { id := toString now ++ "-" ++ toString i
        court := i + 1
        team1 := (mkTeams s.playingType (groupAt s i)).1
        team2 := (mkTeams s.playingType (groupAt s i)).2
        round := s.roundNumber }) := by
  rw [matchesOf, pickedOf_eq, List.map_map]
  rfl

theorem matchesOf_length (now : Nat) (s : AppState) :
    (matchesOf now s).length = matchCount s := by
  rw [matchesOf_eq, List.length_map, List.length_range]

theorem mem_matchesOf (now : Nat) (s : AppState) (m : Match)
    (hm : m ∈ matchesOf now s) :
    ∃ i, i < matchCount s ∧
      m = { id := toString now ++ "-" ++ toString i
            court := i + 1
            team1 := (mkTeams s.playingType (groupAt s i)).1
            team2 := (mkTeams s.playingType (groupAt s i)).2
            round := s.roundNumber } := by
  rw [matchesOf_eq] at hm
  rcases List.mem_map.1 hm with ⟨i, hi, rfl⟩
  exact ⟨i, List.mem_range.1 hi, rfl⟩

theorem matchRefs_flatten (now : Nat) (s : AppState) :
    ((matchesOf now s).map matchRefs).flatten = placedOf s := by
  rw [matchesOf_eq, List.map_map]
  have h : ∀ i ∈ List.range (matchCount s),
      (matchRefs ∘ fun i =>
        ({ id := toString now ++ "-" ++ toString i
           court := i + 1
           team1 := (mkTeams s.playingType (groupAt s i)).1
           team2 := (mkTeams s.playingType (groupAt s i)).2
           round := s.roundNumber } : Match)) i =
      ((sortedPlayers s).drop (i * playersPerMatch s.playingType)).take
        (playersPerMatch s.playingType) := by
    intro i hi
    show matchRefs _ = _
    rw [matchRefs]
    exact mkTeams_flatten s.playingType (groupAt s i)
      (groupAt_length s i (List.mem_range.1 hi))
  rw [List.map_congr_left h, flatten_chunks, placedOf_eq]

/-- C1: a validation-passing `generateMatches` call on `N` active players
produces exactly `min(courts, N / K)` matches (`K` = 2 for singles, 4 for
doubles); every produced match holds exactly `K` pairwise distinct
players; and the heap update increments `gamesPlayed` by exactly 1 for
each placed player and leaves every other player record untouched. -/
theorem C1_match_count_teams_and_increments (now : Nat) (s : AppState)
    (hinv : stateInv s)
    (hN : playersPerMatch s.playingType ≤ (activePlayers s).length) :
    (generateMatches now s).1.currentMatches.length =
      min s.courts ((activePlayers s).length / playersPerMatch s.playingType)
    ∧ (∀ m ∈ (generateMatches now s).1.currentMatches,
        (matchRefs m).length = playersPerMatch s.playingType ∧ (matchRefs m).Nodup)
    ∧ (generateMatches now s).1.heap.length = s.heap.length
    ∧ (∀ r : Ref,
        getP (generateMatches now s).1.heap r =
          if r ∈ ((generateMatches now s).1.currentMatches.map matchRefs).flatten
          then bump (getP s.heap r) else getP s.heap r) := by
  rw [generateMatches_neg now s hN]
  refine ⟨matchesOf_length now s, ?_, bumpRefs_length s.heap (placedOf s), ?_⟩
  · intro m hm
    rcases mem_matchesOf now s m hm with ⟨i, hi, rfl⟩
    have hrefs : matchRefs
        { id := toString now ++ "-" ++ toString i
          court := i + 1
          team1 := (mkTeams s.playingType (groupAt s i)).1
          team2 := (mkTeams s.playingType (groupAt s i)).2
          round := s.roundNumber } = groupAt s i :=
      mkTeams_flatten s.playingType (groupAt s i) (groupAt_length s i hi)
    rw [hrefs]
    have hsub : (groupAt s i).Sublist (sortedPlayers s) := by
      rw [groupAt]
      exact (List.take_sublist _ _).trans (List.drop_sublist _ _)
    exact ⟨groupAt_length s i hi, hsub.nodup (sortedPlayers_nodup s hinv)⟩
  · intro r
    show getP (bumpRefs s.heap (placedOf s)) r = _
    rw [matchRefs_flatten now s]
    exact getP_bumpRefs s.heap (placedOf s) (placedOf_nodup s hinv)
      (placedOf_lt s hinv) r

/-- C2: the selection is the active players sorted ascending by
games-played with ties broken by ascending skill rank; the match at list
position `i` is assigned court `i + 1` and is formed from positions
`i*K … i*K+K-1` of that sorted order, singles pairing `player[0]` vs
`player[1]` and doubles `{player[0],player[1]}` vs `{player[2],player[3]}`. -/
theorem C2_sorted_selection_and_pairing (now : Nat) (s : AppState)
    (hN : playersPerMatch s.playingType ≤ (activePlayers s).length) :
    (sortedPlayers s).Perm (activePlayers s)
    ∧ List.Pairwise (specSortKeyLe s.heap) (sortedPlayers s)
    ∧ (∀ (i : Nat) (m : Match),
        ((generateMatches now s).1.currentMatches)[i]? = some m →
          m.court = i + 1 ∧ m.round = s.roundNumber
          ∧ m.team1 = specTeam1 s.playingType (groupAt s i)
          ∧ m.team2 = specTeam2 s.playingType (groupAt s i)) := by
  refine ⟨sortedPlayers_perm s, ?_, ?_⟩
  · apply (sortedPlayers_sorted s).imp
    intro r1 r2 h
    rw [leRefP, leRef, playerLe] at h
    rw [specSortKeyLe]
    by_cases hg : (getP s.heap r1).gamesPlayed = (getP s.heap r2).gamesPlayed
    · rw [if_neg (fun hne => hne hg)] at h
      exact Or.inr ⟨hg, of_decide_eq_true h⟩
    · rw [if_pos hg] at h
      exact Or.inl (of_decide_eq_true h)
  · intro i m hm
    rw [generateMatches_neg now s hN] at hm
    have hm2 : (matchesOf now s)[i]? = some m := hm
    rw [matchesOf_eq, List.getElem?_map] at hm2
    rcases Option.map_eq_some'.1 hm2 with ⟨j, hj, rfl⟩
    have hiM : i < matchCount s := by
      by_contra hge
      rw [List.getElem?_eq_none (by simpa using Nat.le_of_not_lt hge)] at hj
      exact Option.noConfusion hj
    rw [List.getElem?_range hiM] at hj
    have hij : i = j := Option.some.inj hj
    subst hij
    rcases mkTeams_spec s.playingType (groupAt s i) (groupAt_length s i hiM) with ⟨ht1, ht2⟩
    exact ⟨rfl, rfl, ht1, ht2⟩

theorem C1_witness :
    stateInv wDouble ∧
    playersPerMatch wDouble.playingType ≤ (activePlayers wDouble).length ∧
    ((generateMatches 99 wDouble).1.currentMatches.length =
      min wDouble.courts
        ((activePlayers wDouble).length / playersPerMatch wDouble.playingType)
    ∧ (∀ m ∈ (generateMatches 99 wDouble).1.currentMatches,
        (matchRefs m).length = playersPerMatch wDouble.playingType ∧ (matchRefs m).Nodup)
    ∧ (generateMatches 99 wDouble).1.heap.length = wDouble.heap.length
    ∧ (∀ r : Ref,
        getP (generateMatches 99 wDouble).1.heap r =
          if r ∈ ((generateMatches 99 wDouble).1.currentMatches.map matchRefs).flatten
          then bump (getP wDouble.heap r) else getP wDouble.heap r)) :=
  ⟨by decide, by decide,
    C1_match_count_teams_and_increments 99 wDouble (by decide) (by decide)⟩

theorem C2_witness :
    playersPerMatch wDouble.playingType ≤ (activePlayers wDouble).length ∧
    ((sortedPlayers wDouble).Perm (activePlayers wDouble)
    ∧ List.Pairwise (specSortKeyLe wDouble.heap) (sortedPlayers wDouble)
    ∧ (∀ (i : Nat) (m : Match),
        ((generateMatches 99 wDouble).1.currentMatches)[i]? = some m →
          m.court = i + 1 ∧ m.round = wDouble.roundNumber
          ∧ m.team1 = specTeam1 wDouble.playingType (groupAt wDouble i)
          ∧ m.team2 = specTeam2 wDouble.playingType (groupAt wDouble i))) :=
  ⟨by decide, C2_sorted_selection_and_pairing 99 wDouble (by decide)⟩

/-- C10: the matches of one successful `generateMatches` batch are
pairwise disjoint — no player reference occurs in two matches of the
round, because the court groups are non-overlapping slices of the sorted
selection. -/
theorem C10_batch_matches_pairwise_disjoint (now : Nat) (s : AppState)
    (hinv : stateInv s)
    (hN : playersPerMatch s.playingType ≤ (activePlayers s).length) :
    List.Pairwise (fun m1 m2 => ∀ r ∈ matchRefs m1, r ∉ matchRefs m2)
      ((generateMatches now s).1.currentMatches) := by
  rw [generateMatches_neg now s hN]
  show List.Pairwise _ (matchesOf now s)
  have hflat : ((matchesOf now s).map matchRefs).flatten.Nodup := by
    rw [matchRefs_flatten now s]
    exact placedOf_nodup s hinv
  have hpair := (List.nodup_flatten.1 hflat).2
  rw [List.pairwise_map] at hpair
  exact hpair.imp (fun hd r hr1 hr2 => hd hr1 hr2)

theorem C10_witness :
    stateInv wTwoCourts ∧
    playersPerMatch wTwoCourts.playingType ≤ (activePlayers wTwoCourts).length ∧
    List.Pairwise (fun m1 m2 => ∀ r ∈ matchRefs m1, r ∉ matchRefs m2)
      ((generateMatches 42 wTwoCourts).1.currentMatches) :=
  ⟨by decide, by decide,
    C10_batch_matches_pairwise_disjoint 42 wTwoCourts (by decide) (by decide)⟩

/-! ### Heap aliasing: matches are not snapshots (claim C5) -/

theorem getP_append_lt (h t : List Player) (r : Nat) (hr : r < h.length) :
    getP (h ++ t) r = getP h r := by
  rw [getP, getP, List.getD_eq_getElem?_getD, List.getD_eq_getElem?_getD,
    List.getElem?_append, if_pos hr]

theorem getP_append_self (h : List Player) (p : Player) :
    getP (h ++ [p]) h.length = p := by
  rw [getP, List.getD_eq_getElem?_getD, List.getElem?_append,
    if_neg (Nat.lt_irrefl h.length), Nat.sub_self]
  rfl

theorem toggleLeaveAux_getP (pid : String) (rs : List Ref) (heap : List Player)
    (r : Nat) (hr : r < heap.length) :
    getP (toggleLeaveAux pid heap rs).1 r = getP heap r := by
  induction rs generalizing heap with
  | nil => rfl
  | cons r0 rs ih =>
    show getP (if (getP heap r0).id = pid then _ else _ : List Player × List Ref).1 r = _
    by_cases hp : (getP heap r0).id = pid
    · rw [if_pos hp]
      have hlen : r < (heap ++
          [{ getP heap r0 with isOnLeave := !(getP heap r0).isOnLeave }]).length := by
        rw [List.length_append]
        omega
      rw [ih _ hlen, getP_append_lt _ _ _ hr]
    · rw [if_neg hp]
      exact ih heap hr

/-- C5 counterexample: with two players and format `single`, generate
round 1 and then round 2.  The round-1 history entry is still stored with
the very same match value, but resolving its team members through the
heap now shows `gamesPlayed = 2` where it showed `1` right after the
match was created — a later `generateMatches` mutated the `Player`
records aliased inside the stored match, so matches are not snapshots. -/
theorem C5_counterexample :
    ((generateMatches 6 (generateMatches 5 wSingle).1).1.history.getD 1
        default).matchList
      = ((generateMatches 5 wSingle).1.history.getD 0 default).matchList
    ∧ (((generateMatches 5 wSingle).1.history.getD 0 default).matchList.map
        (fun m => (matchRefs m).map
          (fun r => (getP (generateMatches 5 wSingle).1.heap r).gamesPlayed)))
      = [[1, 1]]
    ∧ (((generateMatches 6 (generateMatches 5 wSingle).1).1.history.getD 1
          default).matchList.map
        (fun m => (matchRefs m).map
          (fun r => (getP (generateMatches 6 (generateMatches 5 wSingle).1).1.heap
            r).gamesPlayed)))
      = [[2, 2]] := by
  decide

/-- C5 amended: a match's teams hold references to the live `Player`
objects, not snapshot copies.  `removePlayer` and `toggleLeave` never
change the contents of any stored match (they drop or *replace* roster
entries, leaving the referenced objects intact), but a later successful
`generateMatches` increments the shared records of the players it places,
and that mutation is visible through every match already stored. -/
theorem C5_references_not_snapshots (pid : String) (now : Nat) (s : AppState) :
    ((removePlayer pid s).heap = s.heap
      ∧ (removePlayer pid s).currentMatches = s.currentMatches
      ∧ (removePlayer pid s).history = s.history)
    ∧ ((toggleLeave pid s).currentMatches = s.currentMatches
      ∧ (toggleLeave pid s).history = s.history
      ∧ ∀ r : Ref, r < s.heap.length →
          getP (toggleLeave pid s).heap r = getP s.heap r)
    ∧ (stateInv s → playersPerMatch s.playingType ≤ (activePlayers s).length →
        ∀ r ∈ placedOf s,
          getP (generateMatches now s).1.heap r = bump (getP s.heap r)) := by
  refine ⟨⟨rfl, rfl, rfl⟩, ⟨rfl, rfl, ?_⟩, ?_⟩
  · intro r hr
    exact toggleLeaveAux_getP pid s.players s.heap r hr
  · intro hinv hN r hrp
    rw [generateMatches_neg now s hN]
    show getP (bumpRefs s.heap (placedOf s)) r = _
    rw [getP_bumpRefs s.heap (placedOf s) (placedOf_nodup s hinv)
      (placedOf_lt s hinv) r, if_pos hrp]

theorem C5_witness :
    (0 < wSingle.heap.length ∧
      getP (toggleLeave "9" wSingle).heap 0 = getP wSingle.heap 0)
    ∧ (stateInv wSingle ∧
        playersPerMatch wSingle.playingType ≤ (activePlayers wSingle).length ∧
        0 ∈ placedOf wSingle ∧
        getP (generateMatches 5 wSingle).1.heap 0 = bump (getP wSingle.heap 0)) :=
  ⟨⟨by decide, (C5_references_not_snapshots "9" 5 wSingle).2.1.2.2 0 (by decide)⟩,
    ⟨by decide, by decide, by decide,
      (C5_references_not_snapshots "9" 5 wSingle).2.2 (by decide) (by decide) 0
        (by decide)⟩⟩

/-! ### Advanced mode and the sort (claim C6) -/

/-- C6 counterexample: two states with advanced mode off, both rosters
holding the same two never-played players; only the stored skill tiers
are swapped between the states, yet the pairing sort orders the two
players oppositely — the sort consults stored tiers even when
`advancedMode = false`. -/
theorem C6_counterexample :
    wSkillA.advancedMode = false ∧ wSkillB.advancedMode = false
    ∧ (getP wSkillA.heap 0).gamesPlayed = (getP wSkillA.heap 1).gamesPlayed
    ∧ (getP wSkillB.heap 0).gamesPlayed = (getP wSkillB.heap 1).gamesPlayed
    ∧ (getP wSkillA.heap 0).id = (getP wSkillB.heap 0).id
    ∧ (getP wSkillA.heap 1).id = (getP wSkillB.heap 1).id
    ∧ sortedPlayers wSkillA = [1, 0]
    ∧ sortedPlayers wSkillB = [0, 1] := by
  decide

/-- C6 amended: with advanced mode off, `addPlayer` stores the neutral
(`intermediate`) tier for every new player, but the pairing comparator
always consults the *stored* tier regardless of the mode: the relative
order of two equal-games players is tier-independent only when their
stored tiers are equal (e.g. in a roster built entirely with advanced
mode off); tiers stored while advanced mode was on keep influencing
pairing after it is turned off. -/
theorem C6_neutral_only_for_new_players (now : Nat) (name : String)
    (sk : SkillLevel) (s : AppState) :
    (s.advancedMode = false → trimString name ≠ "" →
      (addPlayer now name sk s).heap = s.heap ++
        [{ id := toString now, name := trimString name, skill := .intermediate,
           gamesPlayed := 0, isOnLeave := false }])
    ∧ (∀ (heap : List Player) (r1 r2 : Ref),
        (getP heap r1).skill = (getP heap r2).skill →
          leRef heap r1 r2 =
            decide ((getP heap r1).gamesPlayed ≤ (getP heap r2).gamesPlayed)) := by
  constructor
  · intro hadv hname
    rw [addPlayer, if_pos hname, hadv]
    simp
  · intro heap r1 r2 hsk
    rw [leRef, playerLe, hsk]
    by_cases hg : (getP heap r1).gamesPlayed = (getP heap r2).gamesPlayed
    · rw [if_neg (fun hne => hne hg)]
      have h1 : skillOrder (getP heap r2).skill ≤ skillOrder (getP heap r2).skill :=
        Nat.le_refl _
      have h2 : (getP heap r1).gamesPlayed ≤ (getP heap r2).gamesPlayed :=
        Nat.le_of_eq hg
      simp [h1, h2]
    · rw [if_pos hg]
      rw [decide_eq_decide]
      omega

theorem C6_witness :
    (wSingle.advancedMode = false ∧ trimString "Zoe" ≠ "" ∧
      (addPlayer 123 "Zoe" SkillLevel.proPlayer wSingle).heap = wSingle.heap ++
        [{ id := toString 123, name := trimString "Zoe", skill := .intermediate,
           gamesPlayed := 0, isOnLeave := false }])
    ∧ ((getP wSingle.heap 0).skill = (getP wSingle.heap 1).skill ∧
        leRef wSingle.heap 0 1 =
          decide ((getP wSingle.heap 0).gamesPlayed ≤ (getP wSingle.heap 1).gamesPlayed)) :=
  ⟨⟨by decide, by decide,
      (C6_neutral_only_for_new_players 123 "Zoe" .proPlayer wSingle).1 (by decide)
        (by decide)⟩,
    ⟨by decide,
      (C6_neutral_only_for_new_players 123 "Zoe" .proPlayer wSingle).2
        wSingle.heap 0 1 (by decide)⟩⟩

/-! ### addPlayer (claim C8) -/

/-- C8 counterexample: `addPlayer` assigns `Date.now().toString()` as the
id.  With an existing player whose id is `"1"` (added when the clock read
1), a new add at clock value 1 produces a duplicate id — the id is not
unique among the roster, refuting the uniqueness part of the claim. -/
theorem C8_counterexample :
    ((addPlayer 1 "Cara" .beginner wSingle).players.map
        (fun r => (getP (addPlayer 1 "Cara" .beginner wSingle).heap r).id))
      = ["1", "2", "1"]
    ∧ ¬ ((addPlayer 1 "Cara" .beginner wSingle).players.map
        (fun r => (getP (addPlayer 1 "Cara" .beginner wSingle).heap r).id)).Nodup := by
  decide

/-- C8 amended: `addPlayer` rejects empty/whitespace-only names leaving
the state unchanged; a valid name grows the roster by exactly one, the
new entry has `gamesPlayed = 0`, `isOnLeave = false`, skill neutral
unless advanced mode is on, and id `Date.now().toString()` — which is
unique among the roster only when no existing player carries that
timestamp string as its id (adds in the same millisecond collide). -/
theorem C8_add_player (now : Nat) (name : String) (sk : SkillLevel) (s : AppState) :
    (trimString name = "" → addPlayer now name sk s = s)
    ∧ (trimString name ≠ "" →
        (addPlayer now name sk s).players.length = s.players.length + 1)
    ∧ (trimString name ≠ "" →
        getP (addPlayer now name sk s).heap s.heap.length =
          { id := toString now, name := trimString name,
            skill := if s.advancedMode then sk else .intermediate,
            gamesPlayed := 0, isOnLeave := false })
    ∧ (trimString name ≠ "" →
        (s.players.map (fun r => (getP s.heap r).id)).Nodup →
        (∀ r ∈ s.players, r < s.heap.length) →
        toString now ∉ s.players.map (fun r => (getP s.heap r).id) →
        ((addPlayer now name sk s).players.map
          (fun r => (getP (addPlayer now name sk s).heap r).id)).Nodup) := by
  refine ⟨?_, ?_, ?_, ?_⟩
  · intro hname
    rw [addPlayer, if_neg (fun h => h hname)]
  · intro hname
    rw [addPlayer, if_pos hname]
    simp
  · intro hname
    rw [addPlayer, if_pos hname]
    exact getP_append_self s.heap _
  · intro hname hnd hlt hfresh
    rw [addPlayer, if_pos hname]
    show ((s.players ++ [s.heap.length]).map
      (fun r => (getP (s.heap ++ [_]) r).id)).Nodup
    rw [List.map_append]
    have hmap : s.players.map (fun r => (getP (s.heap ++
        [{ id := toString now, name := trimString name,
           skill := if s.advancedMode then sk else .intermediate,
           gamesPlayed := 0, isOnLeave := false }]) r).id) =
        s.players.map (fun r => (getP s.heap r).id) := by
      apply List.map_congr_left
      intro r hr
      rw [getP_append_lt _ _ _ (hlt r hr)]
    rw [hmap]
    rw [List.nodup_append]
    refine ⟨hnd, List.nodup_singleton _, ?_⟩
    intro a ha hb
    simp only [List.map_cons, List.map_nil, List.mem_singleton] at hb
    rw [getP_append_self s.heap] at hb
    subst hb
    exact hfresh ha

theorem C8_witness :
    (trimString " " = "" ∧ addPlayer 5 " " .beginner wSingle = wSingle)
    ∧ (trimString "Cara" ≠ "" ∧
        (addPlayer 123 "Cara" .beginner wSingle).players.length =
          wSingle.players.length + 1)
    ∧ ((wSingle.players.map (fun r => (getP wSingle.heap r).id)).Nodup ∧
        toString 123 ∉ wSingle.players.map (fun r => (getP wSingle.heap r).id) ∧
        ((addPlayer 123 "Cara" .beginner wSingle).players.map
          (fun r => (getP (addPlayer 123 "Cara" .beginner wSingle).heap r).id)).Nodup) :=
  ⟨⟨by decide, (C8_add_player 5 " " .beginner wSingle).1 (by decide)⟩,
    ⟨by decide, (C8_add_player 123 "Cara" .beginner wSingle).2.1 (by decide)⟩,
    ⟨by decide, by decide,
      (C8_add_player 123 "Cara" .beginner wSingle).2.2.2 (by decide) (by decide)
        (by decide) (by decide)⟩⟩

/-! ### The loader (claim C7) -/

theorem lookupField_append (l1 l2 : List (String × JVal)) (key : String) :
    lookupField (l1 ++ l2) key =
      match lookupField l1 key with
      | some x => some x
      | none => lookupField l2 key := by
  induction l1 with
  | nil => rfl
  | cons f t ih =>
    rcases f with ⟨k, x⟩
    by_cases hk : k = key
    · simp [lookupField, hk]
    · simp [lookupField, hk, ih]

theorem lookupField_removeField_ne (fs : List (String × JVal)) (key bad : String)
    (h : key ≠ bad) :
    lookupField (removeField fs bad) key = lookupField fs key := by
  induction fs with
  | nil => rfl
  | cons f t ih =>
    rcases f with ⟨k, x⟩
    rw [removeField]
    by_cases hkb : k = bad
    · rw [if_pos hkb, ih]
      have hkey : ¬ k = key := fun hh => h (by rw [← hh]; exact hkb)
      rw [lookupField, if_neg hkey]
    · rw [if_neg hkb, lookupField, lookupField]
      by_cases hkey : k = key
      · rw [if_pos hkey, if_pos hkey]
      · rw [if_neg hkey, if_neg hkey, ih]

theorem lookupField_removeField_self (fs : List (String × JVal)) (bad : String) :
    lookupField (removeField fs bad) bad = none := by
  induction fs with
  | nil => rfl
  | cons f t ih =>
    rcases f with ⟨k, x⟩
    rw [removeField]
    by_cases hkb : k = bad
    · rw [if_pos hkb]
      exact ih
    · rw [if_neg hkb, lookupField, if_neg hkb]
      exact ih

theorem mapEntry_valid (h h2 : JVal) (hv : validRawEntryJ h = true)
    (he : mapEntry h = .ok h2) : validEntryJ h2 = true := by
  cases h with
  | jobj fs =>
    have hh2 : h2 = .jobj (removeField fs "timestamp"
        ++ [("timestamp", .jdate (lookupField fs "timestamp"))]) := by
      simp [mapEntry, spreadFields, jGet] at he
      exact he.symm
    subst hh2
    simp only [validRawEntryJ, Bool.and_eq_true] at hv
    have hr : lookupField (removeField fs "timestamp"
        ++ [("timestamp", .jdate (lookupField fs "timestamp"))]) "round" =
        lookupField fs "round" := by
      rw [lookupField_append, lookupField_removeField_ne _ _ _ (by decide)]
      cases lookupField fs "round" <;> rfl
    have hm : lookupField (removeField fs "timestamp"
        ++ [("timestamp", .jdate (lookupField fs "timestamp"))]) "matches" =
        lookupField fs "matches" := by
      rw [lookupField_append, lookupField_removeField_ne _ _ _ (by decide)]
      cases lookupField fs "matches" <;> rfl
    have ht : lookupField (removeField fs "timestamp"
        ++ [("timestamp", .jdate (lookupField fs "timestamp"))]) "timestamp" =
        some (.jdate (lookupField fs "timestamp")) := by
      rw [lookupField_append, lookupField_removeField_self]
      rfl
    simp only [validEntryJ, hr, hm, ht, Bool.and_eq_true]
    exact ⟨⟨hv.1, hv.2⟩, trivial⟩
  | jnull => simp [validRawEntryJ] at hv
  | jbool b => simp [validRawEntryJ] at hv
  | jnum n => simp [validRawEntryJ] at hv
  | jstr str => simp [validRawEntryJ] at hv
  | jarr xs => simp [validRawEntryJ] at hv
  | jdate ts => simp [validRawEntryJ] at hv

theorem mapEntries_valid (xs : List JVal) (ys : List JVal)
    (hall : xs.all validRawEntryJ = true) (he : mapEntries xs = .ok ys) :
    ys.all validEntryJ = true := by
  induction xs generalizing ys with
  | nil =>
    cases he
    rfl
  | cons h t ih =>
    rw [List.all_cons, Bool.and_eq_true] at hall
    cases hme : mapEntry h with
    | error e => simp [mapEntries, hme] at he
    | ok h2 =>
      cases hmt : mapEntries t with
      | error e => simp [mapEntries, hme, hmt] at he
      | ok t2 =>
        have hys : ys = h2 :: t2 := by
          simp [mapEntries, hme, hmt] at he
          exact he.symm
        subst hys
        rw [List.all_cons, Bool.and_eq_true]
        exact ⟨mapEntry_valid h h2 hall.1 hme, ih t2 hall.2 hmt⟩

theorem orDefault_valid (x : Option JVal) (d : JVal) (p : JVal → Bool)
    (hd : p d = true) (hx : fieldOkOr x p = true) : p (orDefault x d) = true := by
  cases x with
  | none => exact hd
  | some w =>
    rw [fieldOkOr, Bool.or_eq_true] at hx
    by_cases ht : truthy w = true
    · rw [orDefault, if_pos ht]
      rcases hx with ht' | hp
      · rw [ht] at ht'
        exact absurd ht' (by decide)
      · exact hp
    · rw [orDefault, if_neg ht]
      exact hd

theorem history_field_valid (fs : List (String × JVal)) (hi : Option JVal)
    (hh : loadHistory (lookupField fs "history") = .ok hi)
    (hok : fieldOkOr (lookupField fs "history")
      (fun w => match w with | .jarr xs => xs.all validRawEntryJ | _ => false) = true) :
    (match orDefault hi (.jarr []) with
      | .jarr xs => xs.all validEntryJ | _ => false) = true := by
  cases hl : lookupField fs "history" with
  | none =>
    rw [hl] at hh
    cases hh
    rfl
  | some w =>
    rw [hl] at hh hok
    cases w with
    | jnull =>
      cases hh
      rfl
    | jarr xs =>
      cases hme : mapEntries xs with
      | error e => simp [loadHistory, hme] at hh
      | ok ys =>
        have hhi : hi = some (.jarr ys) := by
          simp [loadHistory, hme] at hh
          exact hh.symm
        subst hhi
        have hxs : xs.all validRawEntryJ = true := by
          rw [fieldOkOr, Bool.or_eq_true] at hok
          rcases hok with hf | hp
          · simp [truthy] at hf
          · exact hp
        show ys.all validEntryJ = true
        exact mapEntries_valid xs ys hxs hme
    | jbool b => simp [loadHistory] at hh
    | jnum n => simp [loadHistory] at hh
    | jstr str => simp [loadHistory] at hh
    | jobj gs => simp [loadHistory] at hh
    | jdate ts => simp [loadHistory] at hh

/-- C7 counterexample: the loader only replaces *falsy* fields
(`parsed.x || default`); a present truthy field of the wrong type passes
through unvalidated.  Storing `{"roundNumber": "x"}` yields a loaded
state whose round counter is the string `"x"`, which is not a
structurally valid session state — refuting "every missing or invalid
field is reconstructed as its typed default, so the result is always
structurally valid". -/
theorem C7_counterexample :
    loadState (some (some (.jobj [("roundNumber", .jstr "x")]))) =
      { players := .jarr []
        history := .jarr []
        roundNumber := .jstr "x"
        courts := .jnum 1
        playingType := .jstr "double"
        advancedMode := .jbool false }
    ∧ isValidDyn (loadState (some (some (.jobj [("roundNumber", .jstr "x")])))) = false :=
  ⟨rfl, rfl⟩

/-- C7 amended: the loader never crashes — a missing key yields the fresh
default session, an unparseable value or a `TypeError` raised while
reading fields (a `null` snapshot, a non-array truthy `history`, a `null`
history entry) is caught and yields the default session, and every
missing or *falsy* field is replaced by its typed default.  However a
present truthy field of the wrong shape is passed through unvalidated, so
the result is structurally valid only under the extra assumption that
every present truthy field of the stored object is well-typed. -/
theorem C7_loader_tolerates_corruption (v : JVal) :
    loadState none = defaultDyn
    ∧ loadState (some none) = defaultDyn
    ∧ (∀ e : Unit, loadFrom v = .error e → loadState (some (some v)) = defaultDyn)
    ∧ (∀ st : DynState, loadFrom v = .ok st → loadState (some (some v)) = st)
    ∧ (∀ st : DynState, loadFrom v = .ok st → fieldsOk v = true →
        isValidDyn st = true) := by
  refine ⟨rfl, rfl, ?_, ?_, ?_⟩
  · intro e he
    simp [loadState, he]
  · intro st hst
    simp [loadState, hst]
  · intro st hst hok
    cases v with
    | jnull => simp [loadFrom] at hst
    | jobj fs =>
      cases hh : loadHistory (lookupField fs "history") with
      | error e =>
        simp [loadFrom, jGet, hh] at hst
      | ok hi =>
        have hst2 : st =
            { players := orDefault (lookupField fs "players") (.jarr [])
              history := orDefault hi (.jarr [])
              roundNumber := orDefault (lookupField fs "roundNumber") (.jnum 1)
              courts := orDefault (lookupField fs "courts") (.jnum 1)
              playingType := orDefault (lookupField fs "playingType") (.jstr "double")
              advancedMode := orDefault (lookupField fs "advancedMode") (.jbool false) } := by
          simp [loadFrom, jGet, hh] at hst
          exact hst.symm
        subst hst2
        simp only [fieldsOk, Bool.and_eq_true] at hok
        obtain ⟨⟨⟨⟨⟨hok1, hok2⟩, hok3⟩, hok4⟩, hok5⟩, hok6⟩ := hok
        simp only [isValidDyn, Bool.and_eq_true]
        refine ⟨⟨⟨⟨⟨?_, ?_⟩, ?_⟩, ?_⟩, ?_⟩, ?_⟩
        · exact orDefault_valid _ _ _ (by rfl) hok1
        · exact history_field_valid fs hi hh hok2
        · exact orDefault_valid _ _ _ (by rfl) hok3
        · exact orDefault_valid _ _ _ (by rfl) hok4
        · exact orDefault_valid _ _ validPlayingTypeJ (by rfl) hok5
        · exact orDefault_valid _ _ _ (by rfl) hok6
    | jbool b =>
      simp [loadFrom, jGet, loadHistory] at hst
      rw [← hst]
      rfl
    | jnum n =>
      simp [loadFrom, jGet, loadHistory] at hst
      rw [← hst]
      rfl
    | jstr str =>
      simp [loadFrom, jGet, loadHistory] at hst
      rw [← hst]
      rfl
    | jarr xs =>
      simp [loadFrom, jGet, loadHistory] at hst
      rw [← hst]
      rfl
    | jdate ts =>
      simp [loadFrom, jGet, loadHistory] at hst
      rw [← hst]
      rfl

theorem C7_witness :
    loadFrom wJson = .ok wDyn ∧ fieldsOk wJson = true ∧ isValidDyn wDyn = true :=
  ⟨rfl, rfl, (C7_loader_tolerates_corruption wJson).2.2.2.2 wDyn rfl rfl⟩

end Badminton
